import Mathlib

/-!
Verification development for the `deltable` repository: a shallow embedding
of the RTF table loader (`src/deltable/rtf_table.py`) and of the table
comparator (`src/deltable/comparison.py`), with theorems settling the
specification claims.

Modelling conventions:
* Python values that can appear in a loaded table (`int`, `float`, `bool`,
  `str`, `None`) are the inductive `Value`.
* Python floats are idealized as exact rationals extended with a NaN value
  and two signed infinities (`PyFloat`); mantissa rounding of the IEEE
  double format is idealized away, but overflow is modelled at the exact
  rounding boundary `2^1024 - 2^970`: `float(<string>)` overflows to
  infinity without raising, while `float(<int>)` raises `OverflowError`
  for integers of magnitude at least that bound.
* Python character classes (`\s`, `\d`, `str.lower`) are modelled over
  the ASCII range, matching every input exercised here.
* Functions that can raise (`ValueError` for inconsistent shapes,
  non-negative-tolerance violations, strict `zip` exhaustion, or an
  `IndexError`) return `Except String _`; the error payload is the
  message raised by the Python code.
* `dict` values are association lists whose key order is insertion order,
  matching Python dict iteration order.
* The comparison summaries built by f-strings in `comparison.py` are
  modelled structurally: each `ComparisonSummary` constructor corresponds
  to one format string and carries exactly the data interpolated into it.
-/

deriving instance DecidableEq for Except

set_option exponentiation.threshold 1100

set_option maxRecDepth 8192

namespace Deltable

/-- Model of a Python float: NaN, signed infinity, or a finite value
(idealized as an exact rational). -/
inductive PyFloat where
  | nan : PyFloat
  | inf (negative : Bool) : PyFloat
  | fin (q : ℚ) : PyFloat
deriving DecidableEq

/-- A cell value of a loaded table: Python `int`, `float`, `bool`, `str`
or `None`. -/
inductive Value where
  | vInt (n : ℤ) : Value
  | vFloat (f : PyFloat) : Value
  | vBool (b : Bool) : Value
  | vText (s : String) : Value
  | vNull : Value
deriving DecidableEq

/-- `TableData`: column-oriented table, an insertion-ordered mapping from
column name to the list of column values (Python `dict[str, list[Any]]`). -/
abbrev TableData : Type := List (String × List Value)

/-- The two comparison outcome categories of `comparison.py`. -/
inductive ComparisonCategory where
  | identical : ComparisonCategory
  | structure_differences : ComparisonCategory
deriving DecidableEq

/-- Structural model of the comparator's summary strings: one constructor
per f-string in `compare_tables`, carrying the interpolated data. -/
inductive ComparisonSummary where
  | columnsMismatch (leftCols rightCols : List String) : ComparisonSummary
  | rowCountMismatch (leftCount rightCount : ℕ) : ComparisonSummary
  | valueMismatch (column : String) (rowIndex : ℕ) (leftValue rightValue : Value) : ComparisonSummary
  | identicalTables (absTol relTol : ℚ) (ignoreCase ignoreSpaces : Bool) : ComparisonSummary
deriving DecidableEq

/-- Embeds the dataclass `TableComparisonResult`. -/
structure TableComparisonResult where
  category : ComparisonCategory
  summary : ComparisonSummary
deriving DecidableEq

/-- Python `\s` / `str.strip` whitespace over the ASCII range. -/
def isPySpace (c : Char) : Bool :=
  c == ' ' || c == '\t' || c == '\n' || c == '\r' || c == Char.ofNat 11 || c == Char.ofNat 12

/-- Python `str.strip()` (ASCII whitespace). -/
def pyStrip (s : String) : String :=
  String.mk (((s.toList.dropWhile isPySpace).reverse.dropWhile isPySpace).reverse)

/-- Python `str.lower()` over the ASCII range. -/
def pyToLower (s : String) : String :=
  String.mk (s.toList.map Char.toLower)

/-- Embeds `WHITESPACE_PATTERN.sub("", value)` of `comparison.py`: removes
every whitespace character. -/
def removeWhitespace (s : String) : String :=
  String.mk (s.toList.filter (fun c => ! isPySpace c))

/-- Numeric view used by Python `==`: ints, floats and bools (as 0/1) all
compare numerically. -/
def numView : Value → Option PyFloat
  | .vInt n => some (.fin (n : ℚ))
  | .vFloat f => some f
  | .vBool b => some (.fin (if b then 1 else 0))
  | _ => none

/-- Python `==` on two floats: NaN is unequal to everything. -/
def pyFloatEq : PyFloat → PyFloat → Bool
  | .nan, _ => false
  | _, .nan => false
  | .inf a, .inf b => a == b
  | .inf _, .fin _ => false
  | .fin _, .inf _ => false
  | .fin p, .fin q => decide (p = q)

/-- Python `==` between two table values (numeric cross-type equality,
including bools as 0/1; strings compare as strings; `None == None`). -/
def pyEq (l r : Value) : Bool :=
  match numView l, numView r with
  | some a, some b => pyFloatEq a b
  | _, _ =>
    match l, r with
    | .vText s, .vText t => s == t
    | .vNull, .vNull => true
    | _, _ => false

/-- The value is a Python `int` or `float` but not a `bool`: the guard of
the numeric branch of `_values_match`. -/
def isNumberNonBool : Value → Bool
  | .vInt _ => true
  | .vFloat _ => true
  | _ => false

/-- Overflow bound of `float(int)`: an integer of magnitude at least
`2^1024 - 2^970` rounds to infinity under round-to-nearest-even, so
CPython raises `OverflowError` for it. -/
def intFloatOvf : ℤ := ((2 ^ 1024 - 2 ^ 970 : ℕ) : ℤ)

/-- The value converts to a float without raising: always for floats,
and for integers of magnitude below the overflow bound. -/
def floatConvertible : Value → Bool
  | .vInt n => decide (-intFloatOvf < n ∧ n < intFloatOvf)
  | _ => true

/-- The converted float of a convertible value. -/
def pyFloatView : Value → PyFloat
  | .vInt n => .fin (n : ℚ)
  | .vFloat f => f
  | _ => .fin 0

/-- The `float(value)` coercion applied by `_values_match` before calling
`_numbers_match` (only reached on non-bool ints and floats): floats pass
through unchanged, and `float(int)` raises `OverflowError` for integers
of magnitude at least `2^1024 - 2^970`. -/
def floatOfValue : Value → Except String PyFloat
  | .vInt n =>
      if n ≤ -intFloatOvf ∨ intFloatOvf ≤ n then
        .error "int too large to convert to float"
      else .ok (.fin (n : ℚ))
  | .vFloat f => .ok f
  | _ => .ok (.fin 0)

/-- PyFloat is NaN. -/
def PyFloat.isNan : PyFloat → Bool
  | .nan => true
  | _ => false

/-- PyFloat is finite. -/
def PyFloat.isFinite : PyFloat → Bool
  | .fin _ => true
  | _ => false

/-- Absolute value on the rationals (C `fabs` in `math.isclose`),
written explicitly so that it evaluates by kernel reduction. -/
def ratAbs (q : ℚ) : ℚ := if q < 0 then -q else q

/-- Embeds `math.isclose(left, right, abs_tol=absTol, rel_tol=relTol)`
following the CPython implementation: negative tolerances raise
`ValueError`; equal values (including equal infinities) are close; an
infinity is otherwise never close; finite values are close when the
difference is within the relative or absolute tolerance. -/
def pyIsClose (a b : PyFloat) (absTol relTol : ℚ) : Except String Bool :=
  if relTol < 0 ∨ absTol < 0 then .error "tolerances must be non-negative"
  else if pyFloatEq a b then .ok true
  else
    match a, b with
    | .inf _, _ => .ok false
    | _, .inf _ => .ok false
    | .fin p, .fin q =>
        .ok (decide (ratAbs (q - p) ≤ ratAbs (relTol * q) ∨
          ratAbs (q - p) ≤ ratAbs (relTol * p) ∨ ratAbs (q - p) ≤ absTol))
    | _, _ => .ok false

/-- Embeds `_numbers_match` of `comparison.py`. -/
def numbers_match (l r : PyFloat) (absTol relTol : ℚ) : Except String Bool :=
  if l.isNan && r.isNan then .ok true
  else if l.isNan || r.isNan then .ok false
  else pyIsClose l r absTol relTol

/-- Embeds `_values_match` of `comparison.py`: in the numeric branch the
`float(...)` coercion of the left value is evaluated first, then the
right one, and either may raise `OverflowError`. -/
def values_match (l r : Value) (absTol relTol : ℚ) : Except String Bool :=
  if l = .vNull ∧ r = .vNull then .ok true
  else if l = .vNull ∨ r = .vNull then .ok false
  else if isNumberNonBool l && isNumberNonBool r then
    match floatOfValue l with
    | .error e => .error e
    | .ok a =>
        match floatOfValue r with
        | .error e => .error e
        | .ok b => numbers_match a b absTol relTol
  else .ok (pyEq l r)

/-- Embeds `_get_row_count` of `comparison.py`: 0 for an empty table,
otherwise the common column length; raises when lengths disagree. -/
def get_row_count (t : TableData) : Except String ℕ :=
  match t with
  | [] => .ok 0
  | (_, v) :: rest =>
      if rest.all (fun p => p.2.length == v.length) then .ok v.length
      else .error "table has inconsistent column lengths."

/-- String normalization applied to one value by
`_normalize_string_columns` (non-strings pass through unchanged). -/
def normalizeValue (ignoreCase ignoreSpaces : Bool) : Value → Value
  | .vText s =>
      .vText (let s1 := if ignoreCase then pyToLower s else s
              if ignoreSpaces then removeWhitespace s1 else s1)
  | v => v

/-- Embeds `_normalize_string_columns` of `comparison.py`. -/
def normalize_string_columns (t : TableData) (ignoreCase ignoreSpaces : Bool) : TableData :=
  if !ignoreCase && !ignoreSpaces then t
  else t.map (fun p => (p.1, p.2.map (normalizeValue ignoreCase ignoreSpaces)))

/-- Column lookup in a table (Python `table[column]`; every lookup done by
the comparator is on a key known to be present). -/
def tableGet (t : TableData) (c : String) : List Value :=
  ((t.find? (fun p => p.1 == c)).map Prod.snd).getD []

/-- Embeds the loop of `_find_first_column_mismatch`, with the running
`enumerate` index: Python `zip(..., strict=True)` raises only when one
side is exhausted before the other, so the length check is lazy. -/
def findMismatchFrom (lv rv : List Value) (absTol relTol : ℚ) (idx : ℕ) :
    Except String (Option (ℕ × Value × Value)) :=
  match lv, rv with
  | [], [] => .ok none
  | l :: ls, r :: rs =>
      match values_match l r absTol relTol with
      | .error e => .error e
      | .ok true => findMismatchFrom ls rs absTol relTol (idx + 1)
      | .ok false => .ok (some (idx, l, r))
  | _, _ => .error "zip() arguments have different lengths"

/-- Embeds `_find_first_column_mismatch` of `comparison.py`. -/
def find_first_column_mismatch (lv rv : List Value) (absTol relTol : ℚ) :
    Except String (Option (ℕ × Value × Value)) :=
  findMismatchFrom lv rv absTol relTol 0

/-- Embeds the column loop of `compare_tables`: scan columns in declared
order, return the first column mismatch found. -/
def scanForMismatch (cols : List String) (nl nr : TableData) (absTol relTol : ℚ) :
    Except String (Option (String × ℕ × Value × Value)) :=
  match cols with
  | [] => .ok none
  | c :: cs =>
      match find_first_column_mismatch (tableGet nl c) (tableGet nr c) absTol relTol with
      | .error e => .error e
      | .ok (some (i, l, r)) => .ok (some (c, i, l, r))
      | .ok none => scanForMismatch cs nl nr absTol relTol

/-- Embeds `compare_tables` of `comparison.py`. -/
def compare_tables (left right : TableData) (absTol relTol : ℚ)
    (ignoreCase ignoreSpaces : Bool) : Except String TableComparisonResult :=
  let leftCols := left.map Prod.fst
  let rightCols := right.map Prod.fst
  if leftCols ≠ rightCols then
    .ok ⟨.structure_differences, .columnsMismatch leftCols rightCols⟩
  else
    match get_row_count left, get_row_count right with
    | .error e, _ => .error e
    | .ok _, .error e => .error e
    | .ok lrc, .ok rrc =>
      if lrc ≠ rrc then .ok ⟨.structure_differences, .rowCountMismatch lrc rrc⟩
      else
        let nl := normalize_string_columns left ignoreCase ignoreSpaces
        let nr := normalize_string_columns right ignoreCase ignoreSpaces
        match scanForMismatch leftCols nl nr absTol relTol with
        | .error e => .error e
        | .ok (some (c, i, l, r)) => .ok ⟨.structure_differences, .valueMismatch c i l r⟩
        | .ok none => .ok ⟨.identical, .identicalTables absTol relTol ignoreCase ignoreSpaces⟩

/-! ## Loader data model (`rtf_table.py`) -/

/-- Embeds the dataclass `RowCell` of `rtf_table.py`. -/
structure RowCell where
  text : String
  h_merge_start : Bool
  h_merge_continue : Bool
  v_merge_start : Bool
  v_merge_continue : Bool
deriving DecidableEq

/-- Embeds the dataclass `ParsedRow` of `rtf_table.py`. -/
structure ParsedRow where
  cells : List RowCell
deriving DecidableEq

/-- `RawTableData`: the column mapping before numeric inference
(`dict[str, list[str | None]]`), in insertion order. -/
abbrev RawTable : Type := List (String × List (Option String))

/-- ASCII decimal digit (model of the regex class `\d`). -/
def isAsciiDigit (c : Char) : Bool := c.isDigit

/-- Decimal value of a digit string. -/
def digitsToNat (cs : List Char) : ℕ :=
  cs.foldl (fun acc c => acc * 10 + (c.toNat - '0'.toNat)) 0

/-! ## Row tokenizer pieces (`_parse_cell_definitions`, `_split_row_cells`,
cell assembly loop of `_extract_rows_from_rtf`) -/

/-- Match the regex `\cellx-?\d+` at the head of the character list,
returning the greedy match length. -/
def tryCellxLen (cs : List Char) : Option ℕ :=
  match cs with
  | '\\' :: 'c' :: 'e' :: 'l' :: 'l' :: 'x' :: rest =>
      match rest with
      | '-' :: rest2 =>
          let d := rest2.takeWhile isAsciiDigit
          if d = [] then none else some (7 + d.length)
      | _ =>
          let d := rest.takeWhile isAsciiDigit
          if d = [] then none else some (6 + d.length)
  | _ => none

/-- Match the regex `\cell(?!x)` at the head of the character list. -/
def tryCellDelimLen (cs : List Char) : Option ℕ :=
  match cs with
  | '\\' :: 'c' :: 'e' :: 'l' :: 'l' :: rest =>
      if rest.headD ' ' == 'x' then none else some 5
  | _ => none

/-- Left-to-right non-overlapping scan for a pattern (`re.finditer`):
returns the (start, stop) spans. The fuel is the remaining length. -/
def scanMatches (tryLen : List Char → Option ℕ) : ℕ → List Char → ℕ → List (ℕ × ℕ)
  | 0, _, _ => []
  | fuel + 1, cs, pos =>
      match tryLen cs with
      | some n => (pos, pos + n) :: scanMatches tryLen fuel (cs.drop n) (pos + n)
      | none =>
          match cs with
          | [] => []
          | _ :: rest => scanMatches tryLen fuel rest (pos + 1)

/-- Substring `block[a:b]` over the character list. -/
def sliceChars (cs : List Char) (a b : ℕ) : String :=
  String.mk ((cs.drop a).take (b - a))

/-- Cut the row block into cell-definition segments ending at each
`\cellx` match end (the slicing loop of `_parse_cell_definitions`). -/
def buildSegments (cs : List Char) (start : ℕ) : List (ℕ × ℕ) → List String
  | [] => []
  | (_, e) :: rest => sliceChars cs start e :: buildSegments cs e rest

/-- Embeds `_parse_cell_definitions` of `rtf_table.py`. -/
def parse_cell_definitions (block : String) : List String :=
  let cs := block.toList
  let ms := scanMatches tryCellxLen cs.length cs 0
  if ms = [] then [] else buildSegments cs 0 ms

/-- Embeds `_find_cell_content_start_index` of `rtf_table.py`. -/
def find_cell_content_start_index (block : String) : ℕ :=
  let cs := block.toList
  let ms := scanMatches tryCellxLen cs.length cs 0
  match ms.getLast? with
  | none => 0
  | some (_, e) => e

/-- Fragments between the content cursor and each `\cell` delimiter
(the slicing loop of `_split_row_cells`); content after the last
delimiter yields no fragment. -/
def fragsFrom (cs : List Char) (cursor : ℕ) : List (ℕ × ℕ) → List String
  | [] => []
  | (s, e) :: rest => sliceChars cs cursor s :: fragsFrom cs e rest

/-- Embeds `_split_row_cells` of `rtf_table.py`. -/
def split_row_cells (block : String) (startIdx : ℕ) : List String :=
  let cs := block.toList
  let tail := cs.drop startIdx
  let ms := scanMatches tryCellDelimLen tail.length tail startIdx
  fragsFrom cs startIdx ms

/-- Bool test for one needle occurring as a contiguous subsequence. -/
def containsSeq (needle hay : List Char) : Bool :=
  match hay with
  | [] => needle == []
  | _ :: rest => needle.isPrefixOf hay || containsSeq needle rest

/-- Python `needle in hay` on strings. -/
def strContains (hay needle : String) : Bool :=
  containsSeq needle.toList hay.toList

/-- The cell-assembly loop of `_extract_rows_from_rtf` (lines 168-179):
one `RowCell` per content fragment, taking the cell definition at the
same index when it exists and `""` otherwise. The text-cleaning pass
`_clean_cell_text` is abstracted as the function argument. -/
def buildRowCellsAux (clean_cell_text : String → String) (cell_defs : List String) :
    List String → ℕ → List RowCell
  | [], _ => []
  | frag :: rest, index =>
      let cell_def := cell_defs.getD index ""
      { text := clean_cell_text frag
        h_merge_start := strContains cell_def "\\clmgf"
        h_merge_continue := strContains cell_def "\\clmrg"
        v_merge_start := strContains cell_def "\\clvmgf"
        v_merge_continue := strContains cell_def "\\clvmrg" } ::
        buildRowCellsAux clean_cell_text cell_defs rest (index + 1)

/-- Cells built from the fragments and cell definitions of one row. -/
def buildRowCells (clean_cell_text : String → String)
    (cell_fragments cell_defs : List String) : List RowCell :=
  buildRowCellsAux clean_cell_text cell_defs cell_fragments 0

/-! ## Composite header builder -/

/-- Strict `zip` of two lists (`zip(..., strict=True)` consumed eagerly):
raises when the lengths differ. -/
def zipStrict {α β : Type} : List α → List β → Except String (List (α × β))
  | [], [] => .ok []
  | x :: xs, y :: ys =>
      match zipStrict xs ys with
      | .error e => .error e
      | .ok rest => .ok ((x, y) :: rest)
  | _, _ => .error "zip() arguments have different lengths"

/-- Embeds `_infer_header_stub_column_count` of `rtf_table.py`. -/
def infer_header_stub_column_count (header_row_2 : List String) : ℕ :=
  max 1 (header_row_2.takeWhile (fun v => pyStrip v == "")).length

/-- Embeds `_expand_header_row` of `rtf_table.py`. -/
def expand_header_row (header_row : List String) (target_length : ℕ)
    (stub_column_count : ℕ) : List String :=
  if target_length = 0 then []
  else if header_row = [] then
    (List.range target_length).map (fun i => "column_" ++ toString (i + 1))
  else if header_row.length = target_length then header_row
  else if header_row.length = 1 then List.replicate target_length (header_row.headD "")
  else
    let scc := min stub_column_count (min header_row.length target_length)
    let stub_columns := header_row.take scc
    let grouped_columns := header_row.drop scc
    let remaining_width := target_length - scc
    let expanded_row :=
      if grouped_columns ≠ [] ∧ 0 < remaining_width ∧
          remaining_width % grouped_columns.length = 0 then
        stub_columns ++
          (grouped_columns.map
            (fun g => List.replicate (remaining_width / grouped_columns.length) g)).flatten
      else stub_columns ++ grouped_columns
    let padded :=
      if expanded_row.length < target_length then
        expanded_row ++
          List.replicate (target_length - expanded_row.length)
            ((expanded_row.getLast?).getD "")
      else expanded_row
    padded.take target_length

/-- The indexed loop of `_apply_horizontal_merge_labels`, threading the
active label; the first argument of the recursion is the number of
columns still to produce. -/
def applyHMergeAux (header_row_1 : List String) (cells : List RowCell) :
    ℕ → ℕ → String → List String
  | 0, _, _ => []
  | remaining + 1, index, active =>
      let label := pyStrip (header_row_1.getD index "")
      match cells.get? index with
      | some cell =>
          if cell.h_merge_start then
            label :: applyHMergeAux header_row_1 cells remaining (index + 1) label
          else if cell.h_merge_continue then
            (if active ≠ "" then active else label) ::
              applyHMergeAux header_row_1 cells remaining (index + 1) active
          else
            label :: applyHMergeAux header_row_1 cells remaining (index + 1)
              (if label ≠ "" then label else active)
      | none =>
          label :: applyHMergeAux header_row_1 cells remaining (index + 1)
            (if label ≠ "" then label else active)

/-- Embeds `_apply_horizontal_merge_labels` of `rtf_table.py`. -/
def apply_horizontal_merge_labels (header_row_1 : List String) (cells : List RowCell)
    (target_length : ℕ) : List String :=
  applyHMergeAux header_row_1 cells target_length 0 ""

/-- Embeds `_compose_header_name` of `rtf_table.py`. -/
def compose_header_name (column_index : ℕ) (level_1 level_2 : String) : String :=
  let c1 := pyStrip level_1
  let c2 := pyStrip level_2
  if column_index = 1 then
    (if c1 ≠ "" then c1 else if c2 ≠ "" then c2 else "column_" ++ toString column_index)
  else if c1 ≠ "" ∧ c2 ≠ "" then c1 ++ " | " ++ c2
  else if c1 ≠ "" then c1
  else if c2 ≠ "" then c2
  else "column_" ++ toString column_index

/-- Occurrence count lookup in the counts dict of `_deduplicate_headers`. -/
def countGet (m : List (String × ℕ)) (k : String) : ℕ :=
  ((m.find? (fun p => p.1 == k)).map Prod.snd).getD 0

/-- Store a count in the counts dict. -/
def countSet (m : List (String × ℕ)) (k : String) (v : ℕ) : List (String × ℕ) :=
  if (m.find? (fun p => p.1 == k)).isSome then
    m.map (fun p => if p.1 == k then (p.1, v) else p)
  else m ++ [(k, v)]

/-- The loop of `_deduplicate_headers`, threading the counts dict. -/
def dedupAux (m : List (String × ℕ)) : List String → List String
  | [] => []
  | h :: rest =>
      let c := countGet m h + 1
      (if c = 1 then h else h ++ "__" ++ toString c) :: dedupAux (countSet m h c) rest

/-- Embeds `_deduplicate_headers` of `rtf_table.py`. -/
def deduplicate_headers (headers : List String) : List String :=
  dedupAux [] headers

/-- The `enumerate(..., start=1)` composition loop of
`_build_composite_headers`. -/
def composeAll (start : ℕ) : List (String × String) → List String
  | [] => []
  | (l1, l2) :: rest => compose_header_name start l1 l2 :: composeAll (start + 1) rest

/-- Embeds `_build_composite_headers` of `rtf_table.py`. -/
def build_composite_headers (header_row_1 header_row_2 : List String)
    (header_row_1_cells : List RowCell) : Except String (List String) :=
  let stubCount := infer_header_stub_column_count header_row_2
  let expanded1 := expand_header_row header_row_1 header_row_2.length stubCount
  let expanded2 := apply_horizontal_merge_labels expanded1 header_row_1_cells header_row_2.length
  match zipStrict expanded2 header_row_2 with
  | .error e => .error e
  | .ok pairs => .ok (deduplicate_headers (composeAll 1 pairs))

/-- The scan loop of `_infer_stub_column_span`. -/
def inferStubSpanAux (total : ℕ) : List String → ℕ → ℕ
  | [], _ => total
  | h :: rest, index =>
      if strContains h " | " then max 1 index else inferStubSpanAux total rest (index + 1)

/-- Embeds `_infer_stub_column_span` of `rtf_table.py`. -/
def infer_stub_column_span (headers : List String) : ℕ :=
  inferStubSpanAux headers.length headers 0

/-! ## Body normalizer -/

/-- Embeds `_is_repeated_header_row` of `rtf_table.py`. -/
def is_repeated_header_row (row_values header_row_1 header_row_2 : List String) : Bool :=
  row_values == header_row_1 || row_values == header_row_2

/-- The main loop of `_normalize_body_rows` over the already-filtered
rows, threading `last_first_cell_value`. A zero-width kept row reaches
the Python expression `row_values[0]`, which raises `IndexError`. -/
def normalizeBodyAux (width span : ℕ) : List ParsedRow → String → Except String (List (List String))
  | [], _ => .ok []
  | row :: rest, lastLabel =>
      if (row.cells.map RowCell.text).length ≠ width then
        if rest.any (fun fr => fr.cells.length == width) then
          .error "RTF table contained inconsistent row width."
        else normalizeBodyAux width span rest lastLabel
      else
        match row.cells with
        | [] => .error "list index out of range"
        | c0 :: crest =>
            if c0.text ≠ "" then
              match normalizeBodyAux width span rest c0.text with
              | .error e => .error e
              | .ok out => .ok ((c0.text :: crest.map RowCell.text) :: out)
            else if span = 1 ∧ c0.v_merge_continue = true ∧ lastLabel ≠ "" then
              match normalizeBodyAux width span rest lastLabel with
              | .error e => .error e
              | .ok out => .ok ((lastLabel :: crest.map RowCell.text) :: out)
            else
              match normalizeBodyAux width span rest lastLabel with
              | .error e => .error e
              | .ok out => .ok ((c0.text :: crest.map RowCell.text) :: out)

/-- Embeds `_normalize_body_rows` of `rtf_table.py`. -/
def normalize_body_rows (rows : List ParsedRow) (width : ℕ)
    (header_row_1 header_row_2 : List String) (stub_column_span : ℕ) :
    Except String (List (List String)) :=
  let filtered := rows.filter
    (fun row => ! is_repeated_header_row (row.cells.map RowCell.text) header_row_1 header_row_2)
  normalizeBodyAux width stub_column_span filtered ""

/-! ## Table assembly and numeric inference -/

/-- Embeds `_normalize_output_value` of `rtf_table.py`. -/
def normalize_output_value (value : String) : Option String :=
  let stripped := pyStrip value
  if stripped = "" then none else some stripped

/-- The dict comprehension `{header: [] for header in headers}`: keys in
first-occurrence order, each mapped to an empty list. -/
def initTableAux (acc : RawTable) : List String → RawTable
  | [] => acc
  | h :: rest =>
      if (acc.find? (fun p => p.1 == h)).isSome then
        initTableAux acc rest
      else initTableAux (acc ++ [(h, [])]) rest

/-- `table[header].append(_normalize_output_value(cell))`. -/
def appendCell (t : RawTable) (k : String) (v : Option String) : RawTable :=
  t.map (fun p => if p.1 == k then (p.1, p.2 ++ [v]) else p)

/-- One row's append loop of `_rows_to_table_data`. -/
def addRow (t : RawTable) : List (String × String) → RawTable
  | [] => t
  | (h, cell) :: rest => addRow (appendCell t h (normalize_output_value cell)) rest

/-- The row loop of `_rows_to_table_data` (strict zip per row). -/
def rowsToTableAux (headers : List String) (t : RawTable) :
    List (List String) → Except String RawTable
  | [] => .ok t
  | row :: rest =>
      match zipStrict headers row with
      | .error e => .error e
      | .ok pairs => rowsToTableAux headers (addRow t pairs) rest

/-- Embeds `_rows_to_table_data` of `rtf_table.py`. -/
def rows_to_table_data (headers : List String) (rows : List (List String)) :
    Except String RawTable :=
  rowsToTableAux headers (initTableAux [] headers) rows

/-- Embeds `_can_parse_int`: full match of `[+-]?\d+`. -/
def can_parse_int (value : String) : Bool :=
  match value.toList with
  | [] => false
  | c :: rest =>
      let digits := if c = '+' ∨ c = '-' then rest else c :: rest
      digits ≠ [] && digits.all isAsciiDigit

/-- Python `int(s)` on a string matching `[+-]?\d+`. -/
def pyParseInt (s : String) : ℤ :=
  match s.toList with
  | '-' :: rest => - (Int.ofNat (digitsToNat rest))
  | '+' :: rest => Int.ofNat (digitsToNat rest)
  | cs => Int.ofNat (digitsToNat cs)

/-- Validity of numeric-literal underscores in Python float syntax: every
underscore sits between two digits. -/
def underscoreOk : List Char → Bool
  | [] => true
  | '_' :: _ => false
  | c :: '_' :: rest =>
      (isAsciiDigit c &&
        (match rest with
         | [] => false
         | r :: _ => isAsciiDigit r)) && underscoreOk rest
  | _ :: rest => underscoreOk rest

/-- Exponent digits of a float literal. -/
def expDigits (m : ℚ) (neg : Bool) (ds : List Char) : Option ℚ :=
  if ds = [] ∨ ¬ (ds.all isAsciiDigit) then none
  else some (if neg then m / 10 ^ digitsToNat ds else m * 10 ^ digitsToNat ds)

/-- Optional exponent part of a float literal. -/
def parseExpPart (m : ℚ) : List Char → Option ℚ
  | [] => some m
  | c :: rest =>
      if c == 'e' || c == 'E' then
        match rest with
        | '+' :: ds => expDigits m false ds
        | '-' :: ds => expDigits m true ds
        | ds => expDigits m false ds
      else none

/-- Unsigned decimal float literal (underscores already stripped). -/
def parsePlainFloat (cs : List Char) : Option ℚ :=
  let ip := cs.takeWhile isAsciiDigit
  let rest1 := cs.drop ip.length
  match rest1 with
  | '.' :: rest2 =>
      let fp := rest2.takeWhile isAsciiDigit
      let rest3 := rest2.drop fp.length
      if ip = [] ∧ fp = [] then none
      else parseExpPart ((digitsToNat ip : ℚ) + (digitsToNat fp : ℚ) / (10 : ℚ) ^ fp.length) rest3
  | _ => if ip = [] then none else parseExpPart (digitsToNat ip : ℚ) rest1

/-- Overflow boundary of `float(<string>)` under round-to-nearest-even:
an exact value of at least `2^1024 - 2^970` rounds to infinity. -/
def ovfThreshold : ℚ := 2 ^ 1024 - 2 ^ 970

/-- Overflow of a parsed literal to a signed infinity (mantissa rounding
below the boundary is idealized as exact). -/
def roundToDouble (q : ℚ) : PyFloat :=
  if ovfThreshold ≤ q then .inf false
  else if q ≤ -ovfThreshold then .inf true
  else .fin q

/-- Python `float(s)` on a string: `None` models `ValueError`. -/
def pyParseFloat (s : String) : Option PyFloat :=
  let cs := ((s.toList.dropWhile isPySpace).reverse.dropWhile isPySpace).reverse
  let signBody : Bool × List Char :=
    match cs with
    | '+' :: rest => (false, rest)
    | '-' :: rest => (true, rest)
    | rest => (false, rest)
  let neg := signBody.1
  let body := signBody.2
  let lower := body.map Char.toLower
  if lower = ['i', 'n', 'f'] ∨ lower = ['i', 'n', 'f', 'i', 'n', 'i', 't', 'y'] then
    some (.inf neg)
  else if lower = ['n', 'a', 'n'] then some .nan
  else if ! underscoreOk body then none
  else
    match parsePlainFloat (body.filter (fun c => c ≠ '_')) with
    | none => none
    | some q => some (roundToDouble (if neg then -q else q))

/-- Embeds `_can_parse_float`: `float(value)` succeeds and is finite. -/
def can_parse_float (value : String) : Bool :=
  match pyParseFloat value with
  | none => false
  | some f => f.isFinite

/-- The two whole-column numeric interpretations (`int` / `float`). -/
inductive NumKind where
  | toInt : NumKind
  | toFloat : NumKind
deriving DecidableEq

/-- Embeds `_infer_numeric_parser` of `rtf_table.py`. -/
def infer_numeric_kind (values : List (Option String)) : Option NumKind :=
  let non_null := values.filterMap id
  if non_null = [] then none
  else if non_null.all can_parse_int then some .toInt
  else if non_null.all can_parse_float then some .toFloat
  else none

/-- A raw cell kept as text (`None` maps to null, a string stays text). -/
def rawToValue : Option String → Value
  | none => .vNull
  | some s => .vText s

/-- Apply the inferred whole-column interpretation to one non-null cell. -/
def applyNumKind : NumKind → String → Value
  | .toInt, s => .vInt (pyParseInt s)
  | .toFloat, s => .vFloat ((pyParseFloat s).getD (.fin 0))

/-- The per-column body of the loop of `_parse_numeric_columns`. -/
def parseOneColumn (values : List (Option String)) : List Value :=
  match infer_numeric_kind values with
  | none => values.map rawToValue
  | some p => values.map (fun v =>
      match v with
      | none => .vNull
      | some s => applyNumKind p s)

/-- Embeds `_parse_numeric_columns` of `rtf_table.py`. -/
def parse_numeric_columns (t : RawTable) : TableData :=
  t.map (fun p => (p.1, parseOneColumn p.2))

/-- Embeds `load_rtf_table` of `rtf_table.py` from the tokenized rows
onward (the regex row extraction over the raw document text feeds this
with its `ParsedRow` list). -/
def load_rtf_table_from_rows (rows : List ParsedRow) : Except String TableData :=
  if rows.length < 3 then .error "RTF table did not contain enough rows."
  else
    match rows with
    | row0 :: row1 :: body =>
        let header_top := row0.cells.map RowCell.text
        let header_sub := row1.cells.map RowCell.text
        match build_composite_headers header_top header_sub row0.cells with
        | .error e => .error e
        | .ok headers =>
          let span := infer_stub_column_span headers
          match normalize_body_rows body headers.length header_top header_sub span with
          | .error e => .error e
          | .ok body_rows =>
            if body_rows = [] then .error "RTF table did not contain any body rows."
            else
              match rows_to_table_data headers body_rows with
              | .error e => .error e
              | .ok raw => .ok (parse_numeric_columns raw)
    | _ => .error "RTF table did not contain enough rows."

/-! ## Support lemmas -/

/-- Length of the cell-assembly loop output: one cell per fragment. -/
lemma buildRowCellsAux_length (clean : String → String) (defs : List String) :
    ∀ (frags : List String) (idx : ℕ),
      (buildRowCellsAux clean defs frags idx).length = frags.length := by
  intro frags
  induction frags with
  | nil => intro idx; rfl
  | cons f rest ih =>
      intro idx
      simp [buildRowCellsAux, ih]

/-- Cells at an index with no cell definition get the empty definition,
so all four merge flags are false. -/
lemma buildRowCellsAux_flags (clean : String → String) (defs : List String) :
    ∀ (frags : List String) (idx i : ℕ) (cell : RowCell),
      defs.length ≤ idx + i →
      (buildRowCellsAux clean defs frags idx).get? i = some cell →
      cell.h_merge_start = false ∧ cell.h_merge_continue = false ∧
      cell.v_merge_start = false ∧ cell.v_merge_continue = false := by
  intro frags
  induction frags with
  | nil => intro idx i cell _ h; simp [buildRowCellsAux] at h
  | cons f rest ih =>
      intro idx i cell hlen h
      match i with
      | 0 =>
          simp only [buildRowCellsAux, List.get?_cons_zero] at h
          have hd : defs.getD idx "" = "" := by
            apply List.getD_eq_default
            omega
          rw [hd] at h
          cases h
          refine ⟨rfl, rfl, rfl, rfl⟩
      | j + 1 =>
          simp only [buildRowCellsAux, List.get?_cons_succ] at h
          exact ih (idx + 1) j cell (by omega) h

/-! ## Claim theorems -/

/-- Claim C2 counterexample: row blocks where the fragment count and the
cell-definition count differ. In the first block one definition faces two
fragments: the code emits two cells, not one, so a fragment beyond the
definition count is not ignored. In the second block two definitions face
one fragment: the code emits one cell, not two, so a definition beyond the
fragment count yields no cell at all. This is the opposite of the claim's
assignment of the two overflow behaviors. -/
theorem claim_c2_counterexample :
    parse_cell_definitions "\\cellx100 x\\cell y\\cell" = ["\\cellx100"] ∧
    find_cell_content_start_index "\\cellx100 x\\cell y\\cell" = 9 ∧
    split_row_cells "\\cellx100 x\\cell y\\cell" 9 = [" x", " y"] ∧
    (buildRowCells id (split_row_cells "\\cellx100 x\\cell y\\cell" 9)
      (parse_cell_definitions "\\cellx100 x\\cell y\\cell")).length = 2 ∧
    parse_cell_definitions "\\clvmrg\\cellx1\\cellx2 a\\cell" = ["\\clvmrg\\cellx1", "\\cellx2"] ∧
    split_row_cells "\\clvmrg\\cellx1\\cellx2 a\\cell"
      (find_cell_content_start_index "\\clvmrg\\cellx1\\cellx2 a\\cell") = [" a"] ∧
    (buildRowCells id
      (split_row_cells "\\clvmrg\\cellx1\\cellx2 a\\cell"
        (find_cell_content_start_index "\\clvmrg\\cellx1\\cellx2 a\\cell"))
      (parse_cell_definitions "\\clvmrg\\cellx1\\cellx2 a\\cell")).length = 1 := by
  decide

/-- Claim C2 amended: for every tokenized row (the cell-assembly loop runs
only when cell definitions were found), definitions beyond the fragment
count are ignored (they emit no cell: the output has exactly one cell per
fragment), while fragments beyond the available definitions yield cells
with empty merge metadata (all four merge flags false). -/
theorem claim_c2_amended (clean : String → String) (frags defs : List String)
    (hdefs : defs ≠ []) :
    (buildRowCells clean frags defs).length = frags.length ∧
    ∀ i cell, defs.length ≤ i → (buildRowCells clean frags defs).get? i = some cell →
      cell.h_merge_start = false ∧ cell.h_merge_continue = false ∧
      cell.v_merge_start = false ∧ cell.v_merge_continue = false := by
  refine ⟨buildRowCellsAux_length clean defs frags 0, ?_⟩
  intro i cell hi h
  exact buildRowCellsAux_flags clean defs frags 0 i cell (by omega) h

/-- Witness for the amended claim C2 at a concrete input: one definition,
two fragments; the second cell exists and has empty merge metadata. -/
theorem claim_c2_amended_witness :
    (["\\cellx1"] : List String) ≠ [] ∧
    ((buildRowCells id ["x", "y"] ["\\cellx1"]).length = (["x", "y"] : List String).length ∧
    ∀ i cell, (["\\cellx1"] : List String).length ≤ i →
      (buildRowCells id ["x", "y"] ["\\cellx1"]).get? i = some cell →
      cell.h_merge_start = false ∧ cell.h_merge_continue = false ∧
      cell.v_merge_start = false ∧ cell.v_merge_continue = false) :=
  ⟨by decide, claim_c2_amended id ["x", "y"] ["\\cellx1"] (by decide)⟩

/-- All-no-flag cells used by concrete loader inputs. -/
def mkCell (t : String) : RowCell := ⟨t, false, false, false, false⟩

/-- Tokenized rows of a document whose composed headers collide after
deduplication: header-top `a, a, a__2` over header-sub `s, (blank),
(blank)` composes to `a, a, a__2`, which `_deduplicate_headers` turns
into `a, a__2, a__2`. -/
def c3Rows : List ParsedRow :=
  [⟨[mkCell "a", mkCell "a", mkCell "a__2"]⟩,
   ⟨[mkCell "s", mkCell "", mkCell ""]⟩,
   ⟨[mkCell "p", mkCell "q", mkCell "r"]⟩]

/-- The table the loader returns on `c3Rows`. -/
def c3Table : TableData := [("a", [.vText "p"]), ("a__2", [.vText "q", .vText "r"])]

/-- Claim C3 refuted by the code on `c3Rows`: `_deduplicate_headers`
produces the duplicate name `a__2` twice (its deterministic suffix can
collide with a header that already ends in `__2`), the dict then merges
the two columns, and the returned table has column lengths 1 and 2 even
though exactly one body row survives — the equal-length part of the table
invariant is violated. The spec's invariant (and the docstring of
`_deduplicate_headers`) state the intent; the code slips on suffix
collisions, so this is recorded as a code bug. -/
theorem claim_c3 :
    load_rtf_table_from_rows c3Rows = .ok c3Table ∧
    c3Table.map (fun p => p.2.length) = [1, 2] ∧ (1 : ℕ) ≠ 2 := by
  decide

/-- Claim C1 counterexample: with `ignore_case=True`, the left raw value
is `"X"` but the mismatch summary carries the post-normalization values
`"x"` and `"y"` (the code searches the normalized columns and reports the
pair it finds there), so the summary does not name both raw
(pre-normalization) values. Moreover, when an equal pair of integers of
magnitude at least `2^1024 - 2^970` precedes the unequal pair, the
program raises `OverflowError` from `float(int)` instead of returning
structure_differences at all (second conjunct), which forces the
convertibility proviso of the amendment. -/
theorem claim_c1_counterexample :
    (compare_tables [("a", [.vText "X"])] [("a", [.vText "y"])] 0 0 true false =
      .ok ⟨.structure_differences, .valueMismatch "a" 0 (.vText "x") (.vText "y")⟩ ∧
    Value.vText "x" ≠ Value.vText "X") ∧
    compare_tables [("a", [.vInt intFloatOvf, .vText "p"])]
        [("a", [.vInt intFloatOvf, .vText "q"])] 0 0 false false =
      .error "int too large to convert to float" := by
  decide

/-- Claim C4 counterexample: the claim fails on the code in two ways.
With the setting `abs_tol = -1`, `math.isclose` raises `ValueError` on a
negative tolerance, so `compare_tables(T, T)` raises instead of
returning the identical category as soon as a numeric pair is compared
(first conjunct). And even with the default tolerances, a valid table
holding an integer of magnitude at least `2^1024 - 2^970` makes
`_values_match` raise `OverflowError` from `float(int)` (second
conjunct). -/
theorem claim_c4_counterexample :
    compare_tables [("a", [.vInt 0])] [("a", [.vInt 0])] (-1) 0 false false =
      .error "tolerances must be non-negative" ∧
    compare_tables [("a", [.vInt intFloatOvf])] [("a", [.vInt intFloatOvf])] 0 0 false false =
      .error "int too large to convert to float" := by
  decide

/-- Claim C10: comparing two empty tables (no columns at all) returns the
identical category for every option setting: `_get_row_count` returns 0
for an empty dict without raising, and the column scan is vacuous. -/
theorem claim_c10 (absTol relTol : ℚ) (ignoreCase ignoreSpaces : Bool) :
    compare_tables [] [] absTol relTol ignoreCase ignoreSpaces =
      .ok ⟨.identical, .identicalTables absTol relTol ignoreCase ignoreSpaces⟩ := by
  rfl

/-- Claim C9: a boolean on either side bypasses the numeric-tolerance
branch of `_values_match` (the guard excludes bools) and falls through to
plain Python equality, under which `True == 1` and `False == 0`; hence a
boolean cell and a numeric cell compare equal exactly when plain equality
holds, for every tolerance and normalization setting. -/
theorem claim_c9 (absTol relTol : ℚ) (b : Bool) (v : Value)
    (hv : isNumberNonBool v = true) :
    values_match (.vBool b) v absTol relTol = .ok (pyEq (.vBool b) v) ∧
    values_match v (.vBool b) absTol relTol = .ok (pyEq v (.vBool b)) ∧
    values_match (.vBool true) (.vInt 1) absTol relTol = .ok true ∧
    values_match (.vBool false) (.vInt 0) absTol relTol = .ok true := by
  cases v <;> simp_all [values_match, isNumberNonBool, pyEq, numView, pyFloatEq]

/-- Witness for claim C9 at the concrete numeric value 1. -/
theorem claim_c9_witness :
    isNumberNonBool (.vInt 1) = true ∧
    (values_match (.vBool true) (.vInt 1) 0 0 = .ok (pyEq (.vBool true) (.vInt 1)) ∧
    values_match (.vInt 1) (.vBool true) 0 0 = .ok (pyEq (.vInt 1) (.vBool true)) ∧
    values_match (.vBool true) (.vInt 1) 0 0 = .ok true ∧
    values_match (.vBool false) (.vInt 0) 0 0 = .ok true) :=
  ⟨rfl, claim_c9 0 0 true (.vInt 1) rfl⟩

/-- Claim-side restatement of the per-column typing rule of §4.4, written
from the claim's words: if every non-null value matches an integer
literal, parse the whole column as integer null-preserving; else if every
non-null value parses as a finite decimal number, parse it as float
null-preserving; otherwise every non-null value stays text. -/
def specParseColumn (values : List (Option String)) : List Value :=
  let non_null := values.filterMap id
  if non_null.all can_parse_int then
    values.map (fun v =>
      match v with
      | none => .vNull
      | some s => .vInt (pyParseInt s))
  else if non_null.all can_parse_float then
    values.map (fun v =>
      match v with
      | none => .vNull
      | some s => .vFloat ((pyParseFloat s).getD (.fin 0)))
  else values.map rawToValue

/-- Claim C5: empty cells become null (`_normalize_output_value` maps a
blank cell to `None`), and the per-column decision of
`_parse_numeric_columns` is the strict all-or-nothing rule of the claim:
all-integer columns parse as integers, otherwise all-finite-float columns
parse as floats, otherwise (a single non-conforming value anywhere)
every non-null value stays text. An all-null column is text-typed in the
code, which coincides value-for-value with the claim's vacuous integer
branch, since parsing preserves every null. -/
theorem claim_c5 :
    (∀ values : List (Option String), parseOneColumn values = specParseColumn values) ∧
    normalize_output_value "" = none := by
  refine ⟨?_, rfl⟩
  intro values
  by_cases hnil : values.filterMap id = []
  · have hall : ∀ v ∈ values, v = none := by
      intro v hv
      have := (List.filterMap_eq_nil_iff.mp hnil) v hv
      simpa using this
    have h1 : infer_numeric_kind values = none := by
      simp [infer_numeric_kind, hnil]
    have h2 : ((values.filterMap id).all can_parse_int) = true := by
      rw [hnil]; rfl
    simp only [parseOneColumn, specParseColumn, h1, h2, if_true]
    apply List.map_congr_left
    intro v hv
    rw [hall v hv]
    rfl
  · by_cases hint : ((values.filterMap id).all can_parse_int) = true
    · have h1 : infer_numeric_kind values = some .toInt := by
        simp [infer_numeric_kind, hnil, hint]
      simp only [parseOneColumn, specParseColumn, h1, hint, if_true]
      apply List.map_congr_left
      intro v _
      cases v <;> rfl
    · by_cases hfloat : ((values.filterMap id).all can_parse_float) = true
      · have h1 : infer_numeric_kind values = some .toFloat := by
          simp [infer_numeric_kind, hnil, hint, hfloat]
        simp only [parseOneColumn, specParseColumn, h1]
        rw [if_neg hint, if_pos hfloat]
        apply List.map_congr_left
        intro v _
        cases v <;> rfl
      · have h1 : infer_numeric_kind values = none := by
          simp [infer_numeric_kind, hnil, hint, hfloat]
        simp only [parseOneColumn, specParseColumn, h1]
        rw [if_neg hint, if_neg hfloat]

/-! ## Header-builder length lemmas -/

/-- Padding a list to a target length and truncating yields exactly the
target length (the tail of `_expand_header_row`). -/
lemma padTake_length (E : List String) (t : ℕ) (x : String) :
    ((if E.length < t then E ++ List.replicate (t - E.length) x else E).take t).length = t := by
  split_ifs with hE
  · simp only [List.length_take, List.length_append, List.length_replicate]
    omega
  · simp only [List.length_take]
    omega

/-- `_expand_header_row` always returns exactly `target_length` labels. -/
lemma expand_header_row_length (header_row : List String) (target_length scc : ℕ) :
    (expand_header_row header_row target_length scc).length = target_length := by
  unfold expand_header_row
  by_cases h0 : target_length = 0
  · rw [if_pos h0]; simp [h0]
  rw [if_neg h0]
  by_cases h1 : header_row = []
  · rw [if_pos h1]; simp
  rw [if_neg h1]
  by_cases h2 : header_row.length = target_length
  · rw [if_pos h2]; exact h2
  rw [if_neg h2]
  by_cases h3 : header_row.length = 1
  · rw [if_pos h3]; simp
  rw [if_neg h3]
  exact padTake_length _ _ _

/-- The horizontal-merge loop returns one label per requested column. -/
lemma applyHMergeAux_length (header_row_1 : List String) (cells : List RowCell) :
    ∀ (remaining index : ℕ) (active : String),
      (applyHMergeAux header_row_1 cells remaining index active).length = remaining := by
  intro remaining
  induction remaining with
  | zero => intro index active; rfl
  | succ k ih =>
      intro index active
      unfold applyHMergeAux
      cases cells.get? index with
      | none => simp [ih]
      | some cell =>
          by_cases hm1 : cell.h_merge_start = true
          · simp [hm1, ih]
          · by_cases hm2 : cell.h_merge_continue = true
            · simp [hm1, hm2, ih]
            · simp [hm1, hm2, ih]

/-- The `enumerate` composition loop returns one name per pair. -/
lemma composeAll_length : ∀ (ps : List (String × String)) (start : ℕ),
    (composeAll start ps).length = ps.length := by
  intro ps
  induction ps with
  | nil => intro start; rfl
  | cons p rest ih => intro start; simp [composeAll, ih]

/-- Deduplication preserves the number of headers. -/
lemma dedupAux_length : ∀ (hs : List String) (m : List (String × ℕ)),
    (dedupAux m hs).length = hs.length := by
  intro hs
  induction hs with
  | nil => intro m; rfl
  | cons h rest ih => intro m; simp [dedupAux, ih]

/-- Strict zip succeeds on equal-length lists. -/
lemma zipStrict_ok {α β : Type} : ∀ (xs : List α) (ys : List β),
    xs.length = ys.length → ∃ l, zipStrict xs ys = .ok l ∧ l.length = xs.length := by
  intro xs
  induction xs with
  | nil =>
      intro ys h
      cases ys with
      | nil => exact ⟨[], rfl, rfl⟩
      | cons y ys => simp at h
  | cons x rest ih =>
      intro ys h
      cases ys with
      | nil => simp at h
      | cons y ys =>
          obtain ⟨l, hl, hlen⟩ := ih ys (by simpa using h)
          refine ⟨(x, y) :: l, ?_, by simp [hlen]⟩
          simp [zipStrict, hl]

/-- The composite header builder always succeeds and returns exactly one
name per sub-header cell. -/
lemma build_composite_headers_ok (header_row_1 header_row_2 : List String)
    (cells : List RowCell) :
    ∃ hs, build_composite_headers header_row_1 header_row_2 cells = .ok hs ∧
      hs.length = header_row_2.length := by
  have hlen : (apply_horizontal_merge_labels
      (expand_header_row header_row_1 header_row_2.length
        (infer_header_stub_column_count header_row_2))
      cells header_row_2.length).length = header_row_2.length :=
    applyHMergeAux_length _ _ _ _ _
  obtain ⟨l, hz, hzlen⟩ := zipStrict_ok _ header_row_2 hlen
  refine ⟨deduplicate_headers (composeAll 1 l), ?_, ?_⟩
  · simp only [build_composite_headers, hz]
  · rw [deduplicate_headers, dedupAux_length, composeAll_length, hzlen, hlen]

/-- Claim C8: for any Header-Top row, any Header-Sub row of width W at
least 1, and any Header-Top merge flags, `_build_composite_headers`
returns exactly W column names. -/
theorem claim_c8 (header_row_1 header_row_2 : List String) (cells : List RowCell)
    (hW : header_row_2 ≠ []) :
    ∃ hs, build_composite_headers header_row_1 header_row_2 cells = .ok hs ∧
      hs.length = header_row_2.length :=
  build_composite_headers_ok header_row_1 header_row_2 cells

/-- Witness for claim C8: an empty Header-Top over a one-cell Header-Sub
yields exactly one column name. -/
theorem claim_c8_witness :
    (["s"] : List String) ≠ [] ∧
    ∃ hs, build_composite_headers [] ["s"] [] = .ok hs ∧ hs.length = (["s"] : List String).length :=
  ⟨by decide, claim_c8 [] ["s"] [] (by decide)⟩

/-! ## Claim C7: vertical-merge label continuity -/

/-- The most recent non-empty column-0 value among the rows kept so far
(the claim's description of the tracked group label). -/
def lastNonEmptyHead (kept : List (List String)) : String :=
  (((kept.filterMap (fun r => r.head?)).filter (fun v => !(v == ""))).getLast?).getD ""

/-- Claim-side restatement of the body-row loop, written from the
claim's words: a kept row whose first-cell text is blank and whose first
cell carries the vertical-merge-continue flag has its blank replaced by
the most recent non-empty column-0 value of an earlier kept row exactly
when the leading stub span is 1 (and such a value exists); for any other
span the cell stays blank. Width filtering and corruption errors are as
in the code. -/
def specNormalizeAux (width span : ℕ) :
    List (List String) → List ParsedRow → Except String (List (List String))
  | _, [] => .ok []
  | kept, row :: rest =>
      if (row.cells.map RowCell.text).length ≠ width then
        if rest.any (fun fr => fr.cells.length == width) then
          .error "RTF table contained inconsistent row width."
        else specNormalizeAux width span kept rest
      else
        match row.cells with
        | [] => .error "list index out of range"
        | c0 :: crest =>
            if c0.text = "" ∧ span = 1 ∧ c0.v_merge_continue = true ∧
                lastNonEmptyHead kept ≠ "" then
              match specNormalizeAux width span
                  (kept ++ [lastNonEmptyHead kept :: crest.map RowCell.text]) rest with
              | .error e => .error e
              | .ok out => .ok ((lastNonEmptyHead kept :: crest.map RowCell.text) :: out)
            else
              match specNormalizeAux width span
                  (kept ++ [c0.text :: crest.map RowCell.text]) rest with
              | .error e => .error e
              | .ok out => .ok ((c0.text :: crest.map RowCell.text) :: out)

/-- Claim-side body normalizer: header-duplicate filtering followed by
the claim's per-row rule starting from no kept rows. -/
def claimNormalizeBody (rows : List ParsedRow) (width : ℕ)
    (header_row_1 header_row_2 : List String) (span : ℕ) :
    Except String (List (List String)) :=
  specNormalizeAux width span []
    (rows.filter
      (fun row => ! is_repeated_header_row (row.cells.map RowCell.text) header_row_1 header_row_2))

/-- Appending a kept row updates the tracked label exactly when its first
cell is non-empty. -/
lemma lastNonEmptyHead_append (kept : List (List String)) (row : List String) :
    lastNonEmptyHead (kept ++ [row]) =
      match row.head? with
      | none => lastNonEmptyHead kept
      | some v => if v = "" then lastNonEmptyHead kept else v := by
  cases row with
  | nil => simp [lastNonEmptyHead]
  | cons v vr =>
      by_cases hv : v = ""
      · simp [lastNonEmptyHead, hv, List.filterMap_append, List.filter_append]
      · simp [lastNonEmptyHead, hv, List.filterMap_append, List.filter_append]

/-- The code's threaded `last_first_cell_value` coincides with the
claim's most-recent-non-empty-column-0 value over the kept rows. -/
lemma normalizeBodyAux_eq_spec (width span : ℕ) :
    ∀ (frows : List ParsedRow) (kept : List (List String)),
      normalizeBodyAux width span frows (lastNonEmptyHead kept) =
        specNormalizeAux width span kept frows := by
  intro frows
  induction frows with
  | nil => intro kept; rfl
  | cons row rest ih =>
      intro kept
      unfold normalizeBodyAux specNormalizeAux
      by_cases hw : (row.cells.map RowCell.text).length ≠ width
      · rw [if_pos hw, if_pos hw]
        by_cases hf : rest.any (fun fr => fr.cells.length == width) = true
        · rw [if_pos hf, if_pos hf]
        · rw [if_neg hf, if_neg hf]
          exact ih kept
      · rw [if_neg hw, if_neg hw]
        cases hc : row.cells with
        | nil => rfl
        | cons c0 crest =>
            dsimp only
            by_cases h0 : c0.text = ""
            · rw [if_neg (by simp [h0])]
              by_cases hb : span = 1 ∧ c0.v_merge_continue = true ∧ lastNonEmptyHead kept ≠ ""
              · rw [if_pos hb, if_pos ⟨h0, hb⟩]
                have hrec := ih (kept ++ [lastNonEmptyHead kept :: crest.map RowCell.text])
                rw [lastNonEmptyHead_append] at hrec
                simp only [List.head?_cons] at hrec
                rw [if_neg hb.2.2] at hrec
                rw [hrec]
              · rw [if_neg hb, if_neg (fun hcon => hb hcon.2)]
                have hrec := ih (kept ++ [c0.text :: crest.map RowCell.text])
                rw [lastNonEmptyHead_append] at hrec
                simp only [List.head?_cons] at hrec
                rw [h0, if_pos rfl] at hrec
                rw [h0, hrec]
            · rw [if_pos h0, if_neg (fun hcon => h0 hcon.1)]
              have hrec := ih (kept ++ [c0.text :: crest.map RowCell.text])
              rw [lastNonEmptyHead_append] at hrec
              simp only [List.head?_cons] at hrec
              rw [if_neg h0] at hrec
              rw [hrec]

/-- Claim C7: `_normalize_body_rows` equals the claim-side normalizer —
for every kept row with a blank first cell carrying the
vertical-merge-continue flag, the blank is replaced by the most recent
non-empty column-0 value of an earlier kept row exactly when the leading
stub span is 1, and stays blank for any other span (in particular for
spans of two or more). -/
theorem claim_c7 (rows : List ParsedRow) (width : ℕ)
    (header_row_1 header_row_2 : List String) (span : ℕ) :
    normalize_body_rows rows width header_row_1 header_row_2 span =
      claimNormalizeBody rows width header_row_1 header_row_2 span := by
  unfold normalize_body_rows claimNormalizeBody
  have h : lastNonEmptyHead [] = "" := rfl
  rw [← h]
  exact normalizeBodyAux_eq_spec width span _ []

/-! ## Claim C6: loader failure conditions -/

/-- Error test on an `Except` result. -/
def isErr {ε α : Type} : Except ε α → Bool
  | .error _ => true
  | .ok _ => false

/-- The claim's corruption condition over the filtered body rows: some
row's cell count differs from the header width while a later row has
exactly the header width. -/
def widthCorruption (width : ℕ) : List ParsedRow → Bool
  | [] => false
  | row :: rest =>
      (!(row.cells.length == width) && rest.any (fun r => r.cells.length == width)) ||
        widthCorruption width rest

/-- The body rows surviving the repeated-header filter. -/
def filteredBody (rows : List ParsedRow) : List ParsedRow :=
  match rows with
  | row0 :: row1 :: body =>
      body.filter
        (fun row => ! is_repeated_header_row (row.cells.map RowCell.text)
          (row0.cells.map RowCell.text) (row1.cells.map RowCell.text))
  | _ => []

/-- The header width of a document: the composite headers are one per
sub-header cell (`build_composite_headers_ok`). -/
def headerWidth (rows : List ParsedRow) : ℕ :=
  match rows with
  | _ :: row1 :: _ => row1.cells.length
  | _ => 0

/-- Unfolding equation of `widthCorruption` at a cons cell. -/
lemma widthCorruption_cons (width : ℕ) (row : ParsedRow) (rest : List ParsedRow) :
    widthCorruption width (row :: rest) =
      ((!(row.cells.length == width) && rest.any (fun r => r.cells.length == width)) ||
        widthCorruption width rest) := rfl

/-- Behavior of the body-row loop on rows with non-empty cell lists: it
raises exactly when the corruption condition holds, a successful result
is empty exactly when no filtered row has the target width, and every
kept row has exactly the target width. -/
lemma normalizeBodyAux_spec (width span : ℕ) :
    ∀ (frows : List ParsedRow) (lastLabel : String),
      (∀ r ∈ frows, r.cells ≠ []) →
      (isErr (normalizeBodyAux width span frows lastLabel) = widthCorruption width frows ∧
       ∀ out, normalizeBodyAux width span frows lastLabel = .ok out →
         ((out = [] ↔ frows.all (fun r => !(r.cells.length == width)) = true) ∧
          ∀ row ∈ out, row.length = width)) := by
  intro frows
  induction frows with
  | nil =>
      intro lastLabel _
      refine ⟨rfl, ?_⟩
      intro out hout
      unfold normalizeBodyAux at hout
      injection hout with h
      subst h
      exact ⟨by simp, by simp⟩
  | cons row rest ih =>
      intro lastLabel hne
      have hner : ∀ r ∈ rest, r.cells ≠ [] := fun r hr => hne r (List.mem_cons_of_mem _ hr)
      unfold normalizeBodyAux
      by_cases hw : (row.cells.map RowCell.text).length ≠ width
      · have hwne : row.cells.length ≠ width := by simpa [List.length_map] using hw
        have hwc : (row.cells.length == width) = false := by simp [hwne]
        rw [if_pos hw]
        by_cases hf : rest.any (fun r => r.cells.length == width) = true
        · rw [if_pos hf]
          refine ⟨?_, ?_⟩
          · rw [widthCorruption_cons]
            simp [isErr, hwc, hf]
          · intro out hout
            simp at hout
        · rw [if_neg hf]
          obtain ⟨ihErr, ihOk⟩ := ih lastLabel hner
          have hfF : rest.any (fun r => r.cells.length == width) = false := by
            revert hf
            cases rest.any (fun r => r.cells.length == width) <;> simp
          refine ⟨?_, ?_⟩
          · rw [widthCorruption_cons, ihErr, hwc, hfF]
            simp
          · intro out hout
            obtain ⟨hiff, hlens⟩ := ihOk out hout
            refine ⟨?_, hlens⟩
            rw [hiff]
            simp [List.all_cons, hwc]
      · rw [if_neg hw]
        have hweq : (row.cells.map RowCell.text).length = width := not_not.mp hw
        have hwc : (row.cells.length == width) = true := by
          simp only [List.length_map] at hweq
          simp [hweq]
        have hwcor : widthCorruption width (row :: rest) = widthCorruption width rest := by
          rw [widthCorruption_cons]
          simp [hwc]
        have hall : ((row :: rest).all (fun r => !(r.cells.length == width))) = false := by
          simp [List.all_cons, hwc]
        have hcells : row.cells ≠ [] := hne row (List.mem_cons_self _ _)
        cases hc : row.cells with
        | nil => exact absurd hc hcells
        | cons c0 crest =>
            dsimp only
            have hnewlen : (c0.text :: crest.map RowCell.text).length = width := by
              rw [← hweq, hc]
              simp
            by_cases h0 : c0.text ≠ ""
            · rw [if_pos h0]
              obtain ⟨ihErr, ihOk⟩ := ih c0.text hner
              cases hrec : normalizeBodyAux width span rest c0.text with
              | error e =>
                  rw [hrec] at ihErr
                  refine ⟨by simpa [isErr, hwcor] using ihErr, ?_⟩
                  intro out2 hout2
                  simp at hout2
              | ok out =>
                  rw [hrec] at ihErr
                  obtain ⟨hiff, hlens⟩ := ihOk out hrec
                  refine ⟨by simpa [isErr, hwcor] using ihErr, ?_⟩
                  intro out2 hout2
                  dsimp only at hout2
                  injection hout2 with h2
                  subst h2
                  refine ⟨⟨fun habs => by simp at habs,
                           fun hallx => by rw [hall] at hallx; cases hallx⟩, ?_⟩
                  intro r hr
                  rcases List.mem_cons.mp hr with h | h
                  · subst h; exact hnewlen
                  · exact hlens r h
            · rw [if_neg h0]
              by_cases hb : span = 1 ∧ c0.v_merge_continue = true ∧ lastLabel ≠ ""
              · rw [if_pos hb]
                have hnewlen2 : (lastLabel :: crest.map RowCell.text).length = width := by
                  rw [← hweq, hc]
                  simp
                obtain ⟨ihErr, ihOk⟩ := ih lastLabel hner
                cases hrec : normalizeBodyAux width span rest lastLabel with
                | error e =>
                    rw [hrec] at ihErr
                    refine ⟨by simpa [isErr, hwcor] using ihErr, ?_⟩
                    intro out2 hout2
                    simp at hout2
                | ok out =>
                    rw [hrec] at ihErr
                    obtain ⟨hiff, hlens⟩ := ihOk out hrec
                    refine ⟨by simpa [isErr, hwcor] using ihErr, ?_⟩
                    intro out2 hout2
                    dsimp only at hout2
                    injection hout2 with h2
                    subst h2
                    refine ⟨⟨fun habs => by simp at habs,
                             fun hallx => by rw [hall] at hallx; cases hallx⟩, ?_⟩
                    intro r hr
                    rcases List.mem_cons.mp hr with h | h
                    · subst h; exact hnewlen2
                    · exact hlens r h
              · rw [if_neg hb]
                obtain ⟨ihErr, ihOk⟩ := ih lastLabel hner
                cases hrec : normalizeBodyAux width span rest lastLabel with
                | error e =>
                    rw [hrec] at ihErr
                    refine ⟨by simpa [isErr, hwcor] using ihErr, ?_⟩
                    intro out2 hout2
                    simp at hout2
                | ok out =>
                    rw [hrec] at ihErr
                    obtain ⟨hiff, hlens⟩ := ihOk out hrec
                    refine ⟨by simpa [isErr, hwcor] using ihErr, ?_⟩
                    intro out2 hout2
                    dsimp only at hout2
                    injection hout2 with h2
                    subst h2
                    refine ⟨⟨fun habs => by simp at habs,
                             fun hallx => by rw [hall] at hallx; cases hallx⟩, ?_⟩
                    intro r hr
                    rcases List.mem_cons.mp hr with h | h
                    · subst h; exact hnewlen
                    · exact hlens r h

/-- The row-appending loop of `_rows_to_table_data` succeeds when every
row has exactly one cell per header. -/
lemma rowsToTableAux_ok (headers : List String) :
    ∀ (rows : List (List String)) (t : RawTable),
      (∀ row ∈ rows, row.length = headers.length) →
      ∃ rt, rowsToTableAux headers t rows = .ok rt := by
  intro rows
  induction rows with
  | nil => intro t _; exact ⟨t, rfl⟩
  | cons row rest ih =>
      intro t hlen
      obtain ⟨l, hz, _⟩ := zipStrict_ok headers row (hlen row (List.mem_cons_self _ _)).symm
      unfold rowsToTableAux
      rw [hz]
      exact ih _ (fun r hr => hlen r (List.mem_cons_of_mem _ hr))

/-- Claim C6: under the tokenizer invariant (every emitted row has a
non-empty cell list), the loader raises exactly when one of the claim's
three conditions holds: fewer than 3 tokenized rows; a filtered body row
whose cell count differs from the header width while some later filtered
row has exactly the header width; or no filtered body row with the header
width remains (zero body rows after filtering). In particular a
width-mismatched row with no later exact-width row is silently dropped
without error (the right-to-left direction when only such rows are
present alongside exact-width rows). -/
theorem claim_c6 (rows : List ParsedRow) (hne : ∀ r ∈ rows, r.cells ≠ []) :
    isErr (load_rtf_table_from_rows rows) = true ↔
      (rows.length < 3 ∨
       widthCorruption (headerWidth rows) (filteredBody rows) = true ∨
       (filteredBody rows).all (fun r => !(r.cells.length == headerWidth rows)) = true) := by
  by_cases h3 : rows.length < 3
  · have hload : isErr (load_rtf_table_from_rows rows) = true := by
      unfold load_rtf_table_from_rows
      rw [if_pos h3]
      rfl
    simp [hload, h3]
  · cases rows with
    | nil => exact absurd (by simp) h3
    | cons r0 tl =>
      cases tl with
      | nil => exact absurd (by simp) h3
      | cons r1 body =>
        unfold load_rtf_table_from_rows
        rw [if_neg h3]
        dsimp only
        obtain ⟨hs, hbuild, hslen⟩ :=
          build_composite_headers_ok (r0.cells.map RowCell.text) (r1.cells.map RowCell.text) r0.cells
        rw [hbuild]
        have hwidth : hs.length = r1.cells.length := by
          simpa [List.length_map] using hslen
        have hW : headerWidth (r0 :: r1 :: body) = hs.length := hwidth.symm
        rw [hW]
        have hfb : filteredBody (r0 :: r1 :: body) =
            body.filter
              (fun row => ! is_repeated_header_row (row.cells.map RowCell.text)
                (r0.cells.map RowCell.text) (r1.cells.map RowCell.text)) := rfl
        rw [hfb]
        have hnef : ∀ r ∈ body.filter
            (fun row => ! is_repeated_header_row (row.cells.map RowCell.text)
              (r0.cells.map RowCell.text) (r1.cells.map RowCell.text)), r.cells ≠ [] := by
          intro r hr
          have hrb : r ∈ body := (List.mem_filter.mp hr).1
          exact hne r (List.mem_cons_of_mem _ (List.mem_cons_of_mem _ hrb))
        obtain ⟨hErr, hOk⟩ := normalizeBodyAux_spec hs.length (infer_stub_column_span hs) _ "" hnef
        unfold normalize_body_rows
        cases hnorm : normalizeBodyAux hs.length (infer_stub_column_span hs)
            (body.filter
              (fun row => ! is_repeated_header_row (row.cells.map RowCell.text)
                (r0.cells.map RowCell.text) (r1.cells.map RowCell.text))) "" with
        | error e =>
            rw [hnorm] at hErr
            simp only [hnorm]
            simp only [isErr] at hErr
            simp [isErr, ← hErr, h3]
        | ok out =>
            rw [hnorm] at hErr
            simp only [hnorm]
            simp only [isErr] at hErr
            obtain ⟨hiff, hlens⟩ := hOk out hnorm
            by_cases hempty : out = []
            · rw [if_pos hempty]
              have hallT := hiff.mp hempty
              simp [isErr, hallT]
            · rw [if_neg hempty]
              have hlens2 : ∀ row ∈ out, row.length = hs.length := hlens
              obtain ⟨rt, hrt⟩ := rowsToTableAux_ok hs out (initTableAux [] hs) hlens2
              unfold rows_to_table_data
              rw [hrt]
              have hcorF : widthCorruption hs.length
                  (body.filter
                    (fun row => ! is_repeated_header_row (row.cells.map RowCell.text)
                      (r0.cells.map RowCell.text) (r1.cells.map RowCell.text))) = false :=
                hErr.symm
              have hallF : ((body.filter
                  (fun row => ! is_repeated_header_row (row.cells.map RowCell.text)
                    (r0.cells.map RowCell.text) (r1.cells.map RowCell.text))).all
                  (fun r => !(r.cells.length == hs.length))) = false := by
                revert hempty
                cases hx : ((body.filter
                    (fun row => ! is_repeated_header_row (row.cells.map RowCell.text)
                      (r0.cells.map RowCell.text) (r1.cells.map RowCell.text))).all
                    (fun r => !(r.cells.length == hs.length)))
                · intro _; rfl
                · intro hemp; exact absurd (hiff.mpr hx) hemp
              simp [isErr, h3, hcorF, hallF]
              simp only [List.length_cons] at h3
              omega

/-- Well-formed three-row document used to instantiate claim C6. -/
def c6Rows : List ParsedRow :=
  [⟨[mkCell "h"]⟩, ⟨[mkCell "s"]⟩, ⟨[mkCell "b"]⟩]

/-- Witness for claim C6 at a concrete well-formed document (all rows
have non-empty cells; neither side of the equivalence holds). -/
theorem claim_c6_witness :
    (∀ r ∈ c6Rows, r.cells ≠ []) ∧
    (isErr (load_rtf_table_from_rows c6Rows) = true ↔
      (c6Rows.length < 3 ∨
       widthCorruption (headerWidth c6Rows) (filteredBody c6Rows) = true ∨
       (filteredBody c6Rows).all (fun r => !(r.cells.length == headerWidth c6Rows)) = true)) :=
  ⟨by decide, claim_c6 c6Rows (by decide)⟩

/-! ## Claim C4: reflexivity of the comparator -/

/-- A convertible value's `float(...)` coercion succeeds. -/
lemma floatOfValue_eq_ok (v : Value) (hv : floatConvertible v = true) :
    floatOfValue v = .ok (pyFloatView v) := by
  cases v with
  | vInt n =>
      have hv2 : decide (-intFloatOvf < n ∧ n < intFloatOvf) = true := hv
      have hv3 := of_decide_eq_true hv2
      have hne : ¬ (n ≤ -intFloatOvf ∨ intFloatOvf ≤ n) := by
        push_neg
        exact hv3
      show (if n ≤ -intFloatOvf ∨ intFloatOvf ≤ n then
          (Except.error "int too large to convert to float" : Except String PyFloat)
        else .ok (.fin (n : ℚ))) = .ok (.fin (n : ℚ))
      rw [if_neg hne]
  | vFloat f => rfl
  | vBool b => rfl
  | vText t => rfl
  | vNull => rfl

/-- String normalization does not change convertibility (it only touches
text values). -/
lemma floatConvertible_normalizeValue (ic isp : Bool) (v : Value) :
    floatConvertible (normalizeValue ic isp v) = floatConvertible v := by
  cases v <;> rfl

/-- Column lookup preserves a table-wide convertibility bound. -/
lemma tableGet_conv (t : TableData)
    (hconv : ∀ p ∈ t, ∀ v ∈ p.2, floatConvertible v = true) (c : String) :
    ∀ v ∈ tableGet t c, floatConvertible v = true := by
  intro v hv
  unfold tableGet at hv
  cases hf : t.find? (fun q => q.1 == c) with
  | none => rw [hf] at hv; simp at hv
  | some p =>
      rw [hf] at hv
      simp at hv
      exact hconv p (List.mem_of_find?_eq_some hf) v hv

/-- String normalization preserves a table-wide convertibility bound. -/
lemma normalize_conv (t : TableData) (ic isp : Bool)
    (hconv : ∀ p ∈ t, ∀ v ∈ p.2, floatConvertible v = true) :
    ∀ p ∈ normalize_string_columns t ic isp, ∀ v ∈ p.2, floatConvertible v = true := by
  unfold normalize_string_columns
  split_ifs
  · exact hconv
  · intro p hp v hv
    obtain ⟨q, hq, hpq⟩ := List.mem_map.mp hp
    subst hpq
    obtain ⟨w, hw, hwv⟩ := List.mem_map.mp hv
    subst hwv
    rw [floatConvertible_normalizeValue]
    exact hconv q hq w hw

/-- `_values_match` is reflexive on convertible values under
non-negative tolerances (null, in-range int, float including NaN and
infinities, bool, text). -/
lemma values_match_refl (v : Value) (absTol relTol : ℚ)
    (hv : floatConvertible v = true) (ha : 0 ≤ absTol) (hr : 0 ≤ relTol) :
    values_match v v absTol relTol = .ok true := by
  have hno : ¬ (relTol < 0 ∨ absTol < 0) := by
    push_neg
    exact ⟨hr, ha⟩
  cases v with
  | vNull => rfl
  | vInt n =>
      have hofv := floatOfValue_eq_ok (.vInt n) hv
      simp [values_match, isNumberNonBool, hofv, pyFloatView, numbers_match, PyFloat.isNan,
        pyIsClose, hno, pyFloatEq]
  | vFloat f =>
      cases f with
      | nan =>
          simp [values_match, isNumberNonBool, floatOfValue, numbers_match, PyFloat.isNan]
      | inf s =>
          simp [values_match, isNumberNonBool, floatOfValue, numbers_match, PyFloat.isNan,
            pyIsClose, hno, pyFloatEq]
      | fin q =>
          simp [values_match, isNumberNonBool, floatOfValue, numbers_match, PyFloat.isNan,
            pyIsClose, hno, pyFloatEq]
  | vBool b =>
      simp [values_match, isNumberNonBool, pyEq, numView, pyFloatEq]
  | vText s =>
      simp [values_match, isNumberNonBool, pyEq, numView]

/-- Scanning a column of convertible values against itself finds no
mismatch. -/
lemma findMismatchFrom_refl (absTol relTol : ℚ) (ha : 0 ≤ absTol) (hr : 0 ≤ relTol) :
    ∀ (l : List Value) (idx : ℕ), (∀ v ∈ l, floatConvertible v = true) →
      findMismatchFrom l l absTol relTol idx = .ok none := by
  intro l
  induction l with
  | nil => intro idx _; rfl
  | cons v rest ih =>
      intro idx hconv
      unfold findMismatchFrom
      rw [values_match_refl v absTol relTol (hconv v (List.mem_cons_self _ _)) ha hr]
      exact ih (idx + 1) (fun w hw => hconv w (List.mem_cons_of_mem _ hw))

/-- Scanning any columns of a table of convertible values against itself
finds no mismatch. -/
lemma scanForMismatch_refl (absTol relTol : ℚ) (ha : 0 ≤ absTol) (hr : 0 ≤ relTol)
    (nl : TableData) :
    ∀ cols, (∀ c ∈ cols, ∀ v ∈ tableGet nl c, floatConvertible v = true) →
      scanForMismatch cols nl nl absTol relTol = .ok none := by
  intro cols
  induction cols with
  | nil => intro _; rfl
  | cons c cs ih =>
      intro hconv
      unfold scanForMismatch find_first_column_mismatch
      rw [findMismatchFrom_refl absTol relTol ha hr _ 0 (hconv c (List.mem_cons_self _ _))]
      exact ih (fun c' hc' => hconv c' (List.mem_cons_of_mem _ hc'))

/-- Claim C4 amended: for every valid table (all column value sequences
of one common length, so `_get_row_count` succeeds) whose integer values
all have magnitude below the `float(int)` overflow bound
`2^1024 - 2^970`, and every non-negative tolerance setting with any
normalization flags, `compare_tables(T, T)` returns category
identical. -/
theorem claim_c4_amended (t : TableData) (absTol relTol : ℚ) (ic isp : Bool) (n : ℕ)
    (hvalid : get_row_count t = .ok n)
    (hconv : ∀ p ∈ t, ∀ v ∈ p.2, floatConvertible v = true)
    (ha : 0 ≤ absTol) (hr : 0 ≤ relTol) :
    compare_tables t t absTol relTol ic isp =
      .ok ⟨.identical, .identicalTables absTol relTol ic isp⟩ := by
  unfold compare_tables
  dsimp only
  rw [if_neg (fun h => h rfl)]
  rw [hvalid]
  dsimp only
  rw [if_neg (fun h => h rfl)]
  rw [scanForMismatch_refl absTol relTol ha hr _ _
    (fun c _ => tableGet_conv _ (normalize_conv t ic isp hconv) c)]

/-- Concrete valid table used to instantiate claim C4. -/
def c4Table : TableData := [("a", [.vInt 0, .vNull])]

/-- Witness for the amended claim C4 at a concrete valid table and the
default tolerances. -/
theorem claim_c4_amended_witness :
    (get_row_count c4Table = .ok 2 ∧
     (∀ p ∈ c4Table, ∀ v ∈ p.2, floatConvertible v = true) ∧
     (0 : ℚ) ≤ 0 ∧ (0 : ℚ) ≤ 0) ∧
    compare_tables c4Table c4Table 0 0 true false =
      .ok ⟨.identical, .identicalTables 0 0 true false⟩ :=
  ⟨⟨by decide, by decide, le_refl 0, le_refl 0⟩,
    claim_c4_amended c4Table 0 0 true false 2 (by decide) (by decide)
      (le_refl 0) (le_refl 0)⟩

/-! ## Claim C1: first-mismatch reporting -/

/-- Total boolean form of `_values_match` (the error case cannot occur
under non-negative tolerances). -/
def valuesMatchB (l r : Value) (absTol relTol : ℚ) : Bool :=
  match values_match l r absTol relTol with
  | .ok b => b
  | .error _ => false

/-- Claim-side first mismatching pair of one column: rows scanned
top-to-bottom over the normalized values, least index first. -/
def specColMismatch : List Value → List Value → ℚ → ℚ → Option (ℕ × Value × Value)
  | l :: ls, r :: rs, absTol, relTol =>
      if valuesMatchB l r absTol relTol then
        (specColMismatch ls rs absTol relTol).map (fun p => (p.1 + 1, p.2))
      else some (0, l, r)
  | _, _, _, _ => none

/-- Claim-side scan: the first column in declared order containing a
mismatch, together with that column's first mismatching row and the two
normalized values there. -/
def specScanMismatch (cols : List String) (nl nr : TableData) (absTol relTol : ℚ) :
    Option (String × ℕ × Value × Value) :=
  cols.findSome?
    (fun c => (specColMismatch (tableGet nl c) (tableGet nr c) absTol relTol).map
      (fun p => (c, p)))

/-- Under non-negative tolerances `_values_match` never raises on
convertible values. -/
lemma values_match_isOk (l r : Value) (absTol relTol : ℚ)
    (ha : 0 ≤ absTol) (hr : 0 ≤ relTol)
    (hcl : floatConvertible l = true) (hcr : floatConvertible r = true) :
    ∃ b, values_match l r absTol relTol = .ok b := by
  have hno : ¬ (relTol < 0 ∨ absTol < 0) := by
    push_neg
    exact ⟨hr, ha⟩
  unfold values_match
  split_ifs with h1 h2 h3
  · exact ⟨true, rfl⟩
  · exact ⟨false, rfl⟩
  · rw [floatOfValue_eq_ok l hcl, floatOfValue_eq_ok r hcr]
    show ∃ b, numbers_match (pyFloatView l) (pyFloatView r) absTol relTol = .ok b
    unfold numbers_match
    split_ifs with h4 h5
    · exact ⟨true, rfl⟩
    · exact ⟨false, rfl⟩
    · unfold pyIsClose
      rw [if_neg hno]
      split_ifs with h6
      · exact ⟨true, rfl⟩
      · cases pyFloatView l <;> cases pyFloatView r <;> exact ⟨_, rfl⟩
  · exact ⟨_, rfl⟩

/-- `_values_match` returns its boolean form on convertible values under
non-negative tolerances. -/
lemma values_match_ok (l r : Value) (absTol relTol : ℚ) (ha : 0 ≤ absTol) (hr : 0 ≤ relTol)
    (hcl : floatConvertible l = true) (hcr : floatConvertible r = true) :
    values_match l r absTol relTol = .ok (valuesMatchB l r absTol relTol) := by
  obtain ⟨b, hb⟩ := values_match_isOk l r absTol relTol ha hr hcl hcr
  rw [hb]
  unfold valuesMatchB
  rw [hb]

/-- The first-mismatch loop equals the claim-side column scan, indices
shifted by the running `enumerate` offset. -/
lemma findMismatchFrom_eq_spec (absTol relTol : ℚ) (ha : 0 ≤ absTol) (hr : 0 ≤ relTol) :
    ∀ (l r : List Value) (idx : ℕ), l.length = r.length →
      (∀ v ∈ l, floatConvertible v = true) → (∀ v ∈ r, floatConvertible v = true) →
      findMismatchFrom l r absTol relTol idx =
        .ok ((specColMismatch l r absTol relTol).map (fun p => (idx + p.1, p.2))) := by
  intro l
  induction l with
  | nil =>
      intro r idx hlen _ _
      cases r with
      | nil => rfl
      | cons w ws => simp at hlen
  | cons v vs ih =>
      intro r idx hlen hcl hcr
      cases r with
      | nil => simp at hlen
      | cons w ws =>
          unfold findMismatchFrom specColMismatch
          rw [values_match_ok v w absTol relTol ha hr
            (hcl v (List.mem_cons_self _ _)) (hcr w (List.mem_cons_self _ _))]
          cases hb : valuesMatchB v w absTol relTol with
          | false =>
              rw [if_neg (by simp)]
              simp
          | true =>
              rw [if_pos rfl]
              rw [ih ws (idx + 1) (by simpa using hlen)
                (fun x hx => hcl x (List.mem_cons_of_mem _ hx))
                (fun x hx => hcr x (List.mem_cons_of_mem _ hx))]
              cases hsp : specColMismatch vs ws absTol relTol with
              | none => rfl
              | some p =>
                  obtain ⟨j, lv, rv⟩ := p
                  simp
                  omega

/-- The comparator's column loop equals the claim-side scan when every
column pair has equal lengths. -/
lemma scanForMismatch_eq_spec (absTol relTol : ℚ) (ha : 0 ≤ absTol) (hr : 0 ≤ relTol)
    (nl nr : TableData) :
    ∀ cols, (∀ c ∈ cols, (tableGet nl c).length = (tableGet nr c).length) →
      (∀ c ∈ cols, ∀ v ∈ tableGet nl c, floatConvertible v = true) →
      (∀ c ∈ cols, ∀ v ∈ tableGet nr c, floatConvertible v = true) →
      scanForMismatch cols nl nr absTol relTol =
        .ok (specScanMismatch cols nl nr absTol relTol) := by
  intro cols
  induction cols with
  | nil => intro _ _ _; rfl
  | cons c cs ih =>
      intro hlen hconvl hconvr
      unfold scanForMismatch find_first_column_mismatch specScanMismatch
      rw [findMismatchFrom_eq_spec absTol relTol ha hr _ _ 0 (hlen c (List.mem_cons_self _ _))
        (hconvl c (List.mem_cons_self _ _)) (hconvr c (List.mem_cons_self _ _))]
      rw [List.findSome?_cons]
      cases hsp : specColMismatch (tableGet nl c) (tableGet nr c) absTol relTol with
      | none =>
          have := ih (fun c' hc' => hlen c' (List.mem_cons_of_mem _ hc'))
            (fun c' hc' => hconvl c' (List.mem_cons_of_mem _ hc'))
            (fun c' hc' => hconvr c' (List.mem_cons_of_mem _ hc'))
          unfold specScanMismatch at this
          exact this
      | some p =>
          obtain ⟨j, lv, rv⟩ := p
          simp

/-- Every column of a table with a consistent row count has that length. -/
lemma get_row_count_cols (t : TableData) (n : ℕ) (h : get_row_count t = .ok n) :
    ∀ p ∈ t, p.2.length = n := by
  intro p hp
  unfold get_row_count at h
  cases t with
  | nil => cases hp
  | cons q rest =>
      obtain ⟨qn, qv⟩ := q
      dsimp only at h
      split_ifs at h with hall
      injection h with hn
      subst hn
      rcases List.mem_cons.mp hp with hph | hmem
      · rw [hph]
      · have := (List.all_eq_true.mp hall) p hmem
        simpa using this

/-- A column name present in the key list is found by `find?`. -/
lemma find?_mem_of_mem_keys : ∀ (t : TableData) (c : String), c ∈ t.map Prod.fst →
    ∃ p, t.find? (fun q => q.1 == c) = some p ∧ p ∈ t ∧ p.1 = c := by
  intro t
  induction t with
  | nil => intro c hc; simp at hc
  | cons q rest ih =>
      intro c hc
      by_cases hq : q.1 = c
      · refine ⟨q, ?_, List.mem_cons_self _ _, hq⟩
        rw [List.find?_cons_of_pos _ (by simp [hq])]
      · have hc' : c ∈ rest.map Prod.fst := by
          rw [List.map_cons] at hc
          rcases List.mem_cons.mp hc with h | h
          · exact absurd h.symm hq
          · exact h
        obtain ⟨p, hf, hm, hpc⟩ := ih c hc'
        refine ⟨p, ?_, List.mem_cons_of_mem _ hm, hpc⟩
        rw [List.find?_cons_of_neg _ (by simp [hq])]
        exact hf

/-- Column lookup in a valid table yields the common length. -/
lemma tableGet_length_of_valid (t : TableData) (n : ℕ) (h : get_row_count t = .ok n)
    (c : String) (hc : c ∈ t.map Prod.fst) : (tableGet t c).length = n := by
  obtain ⟨p, hf, hm, _⟩ := find?_mem_of_mem_keys t c hc
  unfold tableGet
  rw [hf]
  exact get_row_count_cols t n h p hm

/-- Lookup in a value-mapped table. -/
lemma tableGet_map (t : TableData) (f : List Value → List Value) (c : String) :
    tableGet (t.map (fun p => (p.1, f p.2))) c =
      match t.find? (fun q => q.1 == c) with
      | none => []
      | some p => f p.2 := by
  induction t with
  | nil => rfl
  | cons q rest ih =>
      by_cases hq : (q.1 == c) = true
      · have hL : ((q.1, f q.2) :: rest.map (fun p => (p.1, f p.2))).find?
            (fun p => p.1 == c) = some (q.1, f q.2) :=
          List.find?_cons_of_pos _ (by simpa using hq)
        have hR : (q :: rest).find? (fun p => p.1 == c) = some q :=
          List.find?_cons_of_pos _ hq
        unfold tableGet
        rw [List.map_cons, hL, hR]
        rfl
      · have hL : ((q.1, f q.2) :: rest.map (fun p => (p.1, f p.2))).find?
            (fun p => p.1 == c) = (rest.map (fun p => (p.1, f p.2))).find?
            (fun p => p.1 == c) :=
          List.find?_cons_of_neg _ (by simpa using hq)
        have hR : (q :: rest).find? (fun p => p.1 == c) = rest.find? (fun p => p.1 == c) :=
          List.find?_cons_of_neg _ (by simpa using hq)
        unfold tableGet
        rw [List.map_cons, hL, hR]
        unfold tableGet at ih
        exact ih

/-- String normalization preserves every column's length. -/
lemma tableGet_normalize_length (t : TableData) (ic isp : Bool) (c : String) :
    (tableGet (normalize_string_columns t ic isp) c).length = (tableGet t c).length := by
  unfold normalize_string_columns
  split_ifs
  · rfl
  · rw [tableGet_map]
    unfold tableGet
    cases hf : t.find? (fun q => q.1 == c) <;> simp

/-- Claim C1 amended: for tables with identical column-name sequences
and equal (consistent) row counts, whose integer values all have
magnitude below the `float(int)` overflow bound `2^1024 - 2^970`, under
non-negative tolerances, when the claim-side scan (columns in declared
order, rows top-to-bottom over the normalized tables) finds a first
unequal pair, `compare_tables` stops there and returns
structure_differences whose summary names that column, that zero-based
row index, and the two post-normalization values of the pair. -/
theorem claim_c1_amended (left right : TableData) (absTol relTol : ℚ) (ic isp : Bool)
    (n : ℕ) (c : String) (i : ℕ) (lv rv : Value)
    (hcols : left.map Prod.fst = right.map Prod.fst)
    (hl : get_row_count left = .ok n) (hr2 : get_row_count right = .ok n)
    (hconvL : ∀ p ∈ left, ∀ v ∈ p.2, floatConvertible v = true)
    (hconvR : ∀ p ∈ right, ∀ v ∈ p.2, floatConvertible v = true)
    (ha : 0 ≤ absTol) (ht : 0 ≤ relTol)
    (hfind : specScanMismatch (left.map Prod.fst)
        (normalize_string_columns left ic isp) (normalize_string_columns right ic isp)
        absTol relTol = some (c, i, lv, rv)) :
    compare_tables left right absTol relTol ic isp =
      .ok ⟨.structure_differences, .valueMismatch c i lv rv⟩ := by
  have hlens : ∀ c' ∈ left.map Prod.fst,
      (tableGet (normalize_string_columns left ic isp) c').length =
      (tableGet (normalize_string_columns right ic isp) c').length := by
    intro c' hc'
    rw [tableGet_normalize_length, tableGet_normalize_length]
    rw [tableGet_length_of_valid left n hl c' hc',
      tableGet_length_of_valid right n hr2 c' (hcols ▸ hc')]
  have hconvNL : ∀ c' ∈ left.map Prod.fst,
      ∀ v ∈ tableGet (normalize_string_columns left ic isp) c', floatConvertible v = true :=
    fun c' _ => tableGet_conv _ (normalize_conv left ic isp hconvL) c'
  have hconvNR : ∀ c' ∈ left.map Prod.fst,
      ∀ v ∈ tableGet (normalize_string_columns right ic isp) c', floatConvertible v = true :=
    fun c' _ => tableGet_conv _ (normalize_conv right ic isp hconvR) c'
  unfold compare_tables
  dsimp only
  rw [if_neg (by rw [hcols]; exact fun h => h rfl)]
  rw [hl, hr2]
  dsimp only
  rw [if_neg (fun h => h rfl)]
  rw [scanForMismatch_eq_spec absTol relTol ha ht _ _ _ hlens hconvNL hconvNR, hfind]

/-- Concrete left table for the claim C1 witness. -/
def c1Left : TableData := [("a", [.vText "x"])]

/-- Concrete right table for the claim C1 witness. -/
def c1Right : TableData := [("a", [.vText "y"])]

/-- Witness for the amended claim C1 at concrete one-column tables whose
single pair differs. -/
theorem claim_c1_amended_witness :
    (c1Left.map Prod.fst = c1Right.map Prod.fst ∧
     get_row_count c1Left = .ok 1 ∧ get_row_count c1Right = .ok 1 ∧
     (∀ p ∈ c1Left, ∀ v ∈ p.2, floatConvertible v = true) ∧
     (∀ p ∈ c1Right, ∀ v ∈ p.2, floatConvertible v = true) ∧
     (0 : ℚ) ≤ 0 ∧
     specScanMismatch (c1Left.map Prod.fst)
       (normalize_string_columns c1Left false false)
       (normalize_string_columns c1Right false false) 0 0 =
         some ("a", 0, .vText "x", .vText "y")) ∧
    compare_tables c1Left c1Right 0 0 false false =
      .ok ⟨.structure_differences, .valueMismatch "a" 0 (.vText "x") (.vText "y")⟩ :=
  ⟨⟨by decide, by decide, by decide, by decide, by decide, le_refl 0, by decide⟩,
   claim_c1_amended c1Left c1Right 0 0 false false 1 "a" 0 (.vText "x") (.vText "y")
     (by decide) (by decide) (by decide) (by decide) (by decide)
     (le_refl 0) (le_refl 0) (by decide)⟩

end Deltable
